import Mathlib

/-!
Verification of the chunked resumable-upload transcription service
(src/services/geminiService.ts, with the alternate service copy in
src/unnamed/part_002).  The service is embedded shallowly: the network is an
oracle environment supplying the responses the code reads, and each run
produces an outcome together with the ordered trace of network requests and
progress-callback invocations.
-/

namespace Transcriber

/-- Upload chunk size from constants.ts: 8 MiB. -/
def UPLOAD_CHUNK_SIZE : Nat := 8 * 1024 * 1024

/-- Deep model id from constants.ts (GEMINI_PRO_MODEL). -/
def GEMINI_PRO_MODEL : String := "gemini-2.0-flash-thinking-exp-01-21"

/-- Fast model id from constants.ts (GEMINI_FLASH_MODEL). -/
def GEMINI_FLASH_MODEL : String := "gemini-2.0-flash-exp"

/-- API host, used by the part_002 variant to absolutize a relative upload URL. -/
def GEMINI_HOST : String := "https://generativelanguage.googleapis.com"

/-- JavaScript String.prototype.includes: substring containment. -/
def includes (s sub : String) : Bool := decide (sub.data <:+: s.data)

/-- The key-embedding step shared by both service variants (geminiService.ts
lines 36-39): if the resumable URL does not contain the substring "key=",
append the API key using the separator chosen by whether the URL already has
a query component. -/
def ensureKey (apiKey url : String) : String :=
  if !(includes url "key=") then
    let sep := if includes url "?" then "&" else "?"
    url ++ sep ++ "key=" ++ apiKey
  else url

/-- Session-URL normalization of the part_002 variant (lines 323-332): a
relative URL (starting with a slash) is prefixed with the API host, then the
API key is embedded if absent. -/
def normalizeResumableUrl (apiKey url : String) : String :=
  let u := if url.startsWith "/" then GEMINI_HOST ++ url else url
  ensureKey apiKey u

/-- The fields of the browser File object the service reads. -/
structure MediaFile where
  size : Nat
  name : String
  type : String
deriving Repr, DecidableEq

/-- The `mimeType || file.type || 'application/octet-stream'` computation of
transcribeMedia (line 108). -/
def safeMime (mimeType : String) (f : MediaFile) : String :=
  if mimeType = "" then
    (if f.type = "" then "application/octet-stream" else f.type)
  else mimeType

/-- Response to the initial resumable request: fetch's ok flag, statusText,
and the x-goog-upload-url header (if present). -/
structure InitResponse where
  ok : Bool
  statusText : String
  uploadUrlHeader : Option String

/-- The file descriptor parsed from an upload-completion response body. -/
structure FileInfo where
  uri : String
  name : String
  state : String
deriving Repr, DecidableEq

/-- Response to one chunk PUT: HTTP status, statusText, the body as text
(read on error), and the parsed file descriptor (read on completion). -/
structure ChunkResponse where
  status : Nat
  statusText : String
  bodyText : String
  json : FileInfo
deriving Repr, DecidableEq

/-- fetch's Response.ok: status in the range 200-299. -/
def ChunkResponse.ok (r : ChunkResponse) : Bool :=
  decide (200 ≤ r.status ∧ r.status < 300)

/-- The oracle environment: what the process environment and the remote
server answer at each interaction point.  chunkRes is indexed by the ordinal
of the chunk request; pollStates lists the states returned by successive
status checks; genText is the text field of the generation response. -/
structure Env where
  apiKey : Option String
  initRes : InitResponse
  chunkRes : Nat → ChunkResponse
  pollStates : List String
  genText : Option String

/-- Observable events of one run, in order: network requests issued and
values passed to the onProgress callback. -/
inductive Event where
  | initRequest : Event
  | chunkRequest : String → Nat → Nat → Event
  | pollRequest : Event
  | genRequest : String → Option Nat → String → Event
  | progress : Nat → Event
deriving Repr, DecidableEq

/-- Result of a run: a value, a thrown Error message, or divergence (an
infinite loop in the source, signalled when the oracle cannot end it). -/
inductive Outcome (α : Type) where
  | ok : α → Outcome α
  | err : String → Outcome α
  | diverge : Outcome α
deriving Repr, DecidableEq

/-- The integer percentage reported after a chunk: the source computes
Math.round((offset / size) * 100) capped by min at 99 (line 71).  Under
exact arithmetic round(100*e/S) = floor((200*e + S) / (2*S)). -/
def pct (size e : Nat) : Nat := min ((200 * e + size) / (2 * size)) 99

/-- The polling loop of uploadToGemini (lines 82-88): while the state equals
PROCESSING, issue a status check, read the new state, and throw if it is
FAILED.  Each recursive step consumes one oracle answer; an exhausted oracle
while still PROCESSING models an endless poll. -/
def pollLoop : String → List String → Outcome Unit × List Event
  | st, [] =>
    if st = "PROCESSING" then (Outcome.diverge, []) else (Outcome.ok (), [])
  | st, s :: rest =>
    if st = "PROCESSING" then
      if s = "FAILED" then
        (Outcome.err "File processing failed on Gemini servers.", [Event.pollRequest])
      else
        let r := pollLoop s rest
        (r.1, Event.pollRequest :: r.2)
    else (Outcome.ok (), [])

/-- The chunk loop of uploadToGemini (lines 44-92), fuel-indexed.  While
offset < size: compute chunkEnd, issue the chunk request; a status that is
neither 308 nor ok throws the upload error; otherwise advance the offset,
report progress, and on an ok non-308 status parse the body, poll for the
ACTIVE state and return the file uri.  One unit of fuel is spent per
iteration; the caller supplies size + 1 fuel, enough for every terminating
run (with a zero chunk size the source loops forever, modelled as
divergence by fuel exhaustion). -/
def uploadLoopF (ch : Nat → ChunkResponse) (size csize : Nat) (url : String)
    (polls : List String) : Nat → Nat → Nat → Outcome String × List Event
  | 0, _, _ => (Outcome.diverge, [])
  | fuel+1, idx, offset =>
    if offset < size then
      let chunkEnd := min (offset + csize) size
      let r := ch idx
      let ev := Event.chunkRequest url offset (chunkEnd - offset)
      if r.status ≠ 308 ∧ r.ok = false then
        (Outcome.err ("Upload failed at offset " ++ toString offset ++ ": " ++
          toString r.status ++ " " ++ r.statusText ++ " - " ++ r.bodyText), [ev])
      else
        let pv := pct size chunkEnd
        if r.ok = true ∧ r.status ≠ 308 then
          let pr := pollLoop r.json.state polls
          ((match pr.1 with
            | Outcome.ok _ => Outcome.ok r.json.uri
            | Outcome.err m => Outcome.err m
            | Outcome.diverge => Outcome.diverge),
           ev :: Event.progress pv :: pr.2)
        else
          let rec' := uploadLoopF ch size csize url polls fuel (idx+1) chunkEnd
          (rec'.1, ev :: Event.progress pv :: rec'.2)
    else (Outcome.err "Upload loop finished without returning URI", [])

/-- uploadToGemini (lines 8-95): issue the session-initiation request; on a
non-ok response or a missing x-goog-upload-url header throw; otherwise embed
the API key in the resumable URL and run the chunk loop against it. -/
def uploadToGemini (env : Env) (file : MediaFile) (apiKey : String) :
    Outcome String × List Event :=
  if env.initRes.ok = false then
    (Outcome.err ("Failed to initialize upload: " ++ env.initRes.statusText),
     [Event.initRequest])
  else
    match env.initRes.uploadUrlHeader with
    | none => (Outcome.err "No upload URL received from Gemini API", [Event.initRequest])
    | some raw =>
      let resumableUrl := ensureKey apiKey raw
      let r := uploadLoopF env.chunkRes file.size UPLOAD_CHUNK_SIZE resumableUrl
        env.pollStates (file.size + 1) 0 0
      (r.1, Event.initRequest :: r.2)

/-- transcribeMedia (lines 97-154): require the API key (a falsy value
throws), upload the file, report 100 percent, then issue one generation
request whose model and thinking budget depend on isComplex, and return the
response text with the literal fallback for a falsy (absent or empty)
text. -/
def transcribeMedia (env : Env) (file : MediaFile) (mimeType : String)
    (isComplex : Bool) : Outcome String × List Event :=
  match env.apiKey with
  | none => (Outcome.err "API Key not found in environment variables.", [])
  | some key =>
    if key = "" then
      (Outcome.err "API Key not found in environment variables.", [])
    else
      let up := uploadToGemini env file key
      match up.1 with
      | Outcome.ok _fileUri =>
        let modelId := if isComplex then GEMINI_PRO_MODEL else GEMINI_FLASH_MODEL
        let thinking : Option Nat := if isComplex then some 32768 else none
        let text :=
          match env.genText with
          | none => "No transcription generated."
          | some s => if s = "" then "No transcription generated." else s
        (Outcome.ok text,
         up.2 ++ [Event.progress 100,
           Event.genRequest modelId thinking (safeMime mimeType file)])
      | Outcome.err m => (Outcome.err m, up.2)
      | Outcome.diverge => (Outcome.diverge, up.2)

/-- The text transcribeMedia returns: the generation response text, with the
literal fallback substituted for a falsy (absent or empty) text. -/
def genTextOf (env : Env) : String :=
  match env.genText with
  | none => "No transcription generated."
  | some s => if s = "" then "No transcription generated." else s

/-- The byte ranges (offset, length) the chunk loop generates from a given
offset, as a pure function of size and chunk size. -/
def chunksFrom (size csize : Nat) (offset : Nat) : List (Nat × Nat) :=
  if h : offset < size ∧ 0 < csize then
    (offset, min (offset + csize) size - offset) ::
      chunksFrom size csize (min (offset + csize) size)
  else []
termination_by size - offset
decreasing_by omega

/-- n consecutive full chunks of length csize starting at a given offset. -/
def contChunks (offset csize : Nat) : Nat → List (Nat × Nat)
  | 0 => []
  | n+1 => (offset, csize) :: contChunks (offset + csize) csize n

/-- Contiguity: each range starts where the previous one ended, the first at
the given offset, and every range is nonempty. -/
def Contig : Nat → List (Nat × Nat) → Prop
  | _, [] => True
  | o, p :: rest => p.1 = o ∧ 0 < p.2 ∧ Contig (o + p.2) rest

/-- ceil((size - offset) / csize): the number of chunks remaining from a
given offset. -/
def nFrom (size csize offset : Nat) : Nat := (size - offset + csize - 1) / csize

/-- The trace fragment of one accepted chunk: its request followed by its
progress report. -/
def chunkTrace (url : String) (size : Nat) : List (Nat × Nat) → List Event
  | [] => []
  | p :: rest =>
    Event.chunkRequest url p.1 p.2 :: Event.progress (pct size (p.1 + p.2)) ::
      chunkTrace url size rest

/-- The chunk requests of a trace, as (offset, length) pairs. -/
def chunkReqs : List Event → List (Nat × Nat)
  | [] => []
  | Event.chunkRequest _ o l :: rest => (o, l) :: chunkReqs rest
  | _ :: rest => chunkReqs rest

/-- The values passed to the onProgress callback, in order. -/
def progressVals : List Event → List Nat
  | [] => []
  | Event.progress n :: rest => n :: progressVals rest
  | _ :: rest => progressVals rest

/-- The generation requests of a trace: (model, thinking budget, mime). -/
def genReqs : List Event → List (String × Option Nat × String)
  | [] => []
  | Event.genRequest m t mm :: rest => (m, t, mm) :: genReqs rest
  | _ :: rest => genReqs rest

/-- A protocol-conforming server: every non-final chunk request is answered
with 308 Resume Incomplete, and the final one with an ok non-308 status. -/
def Conforming (ch : Nat → ChunkResponse) (size csize : Nat) : Prop :=
  ∀ i, if (i+1) * csize < size then (ch i).status = 308
       else ((ch i).ok = true ∧ (ch i).status ≠ 308)

/-- A chunk-response oracle that answers 308 on non-final chunks and a fixed
final response on the final one. -/
def mkChunkRes (size csize : Nat) (cont fin : ChunkResponse) : Nat → ChunkResponse :=
  fun i => if (i+1) * csize < size then cont else fin

/-- A 308 Resume Incomplete response for intermediate chunks. -/
def contRes : ChunkResponse :=
  { status := 308, statusText := "Resume Incomplete", bodyText := "",
    json := { uri := "", name := "", state := "" } }

/-- A 200 completion response whose file is already ACTIVE. -/
def finResActive : ChunkResponse :=
  { status := 200, statusText := "OK", bodyText := "",
    json := { uri := "files/abc", name := "files/abc", state := "ACTIVE" } }

/-- A 200 completion response whose file is PROCESSING. -/
def finResProcessing : ChunkResponse :=
  { status := 200, statusText := "OK", bodyText := "",
    json := { uri := "files/abc", name := "files/abc", state := "PROCESSING" } }

/-- A 200 completion response whose file is already FAILED. -/
def finResFailed : ChunkResponse :=
  { status := 200, statusText := "OK", bodyText := "",
    json := { uri := "files/abc", name := "files/abc", state := "FAILED" } }

/-- A 5-byte audio file (one chunk). -/
def demoFile : MediaFile := { size := 5, name := "a.mp3", type := "audio/mpeg" }

/-- An ok initiation response carrying an upload URL. -/
def demoInit : InitResponse :=
  { ok := true, statusText := "OK",
    uploadUrlHeader := some "https://u.example/upload?uid=1" }

/-- A fully successful environment for the 5-byte file. -/
def demoEnv : Env :=
  { apiKey := some "K", initRes := demoInit,
    chunkRes := mkChunkRes 5 UPLOAD_CHUNK_SIZE contRes finResActive,
    pollStates := [], genText := some "hello" }

/-- A 500 error response with a body. -/
def badRes : ChunkResponse :=
  { status := 500, statusText := "Internal Server Error", bodyText := "boom",
    json := { uri := "", name := "", state := "" } }

/-- A file one chunk larger than the chunk size (8 MiB + 5 bytes). -/
def bigFile : MediaFile :=
  { size := 8 * 1024 * 1024 + 5, name := "b.mp4", type := "video/mp4" }

/-- An environment whose second chunk request gets a 500 response. -/
def errEnv : Env :=
  { apiKey := some "K", initRes := demoInit,
    chunkRes := fun i => if i = 0 then contRes else badRes,
    pollStates := [], genText := some "hi" }

/-- An environment whose final-chunk response reports state FAILED. -/
def failEnv : Env :=
  { apiKey := some "K", initRes := demoInit,
    chunkRes := mkChunkRes 5 UPLOAD_CHUNK_SIZE contRes finResFailed,
    pollStates := [], genText := some "hi" }

/-- An environment whose final-chunk response reports PROCESSING and whose
first poll answers FAILED. -/
def failPollEnv : Env :=
  { apiKey := some "K", initRes := demoInit,
    chunkRes := mkChunkRes 5 UPLOAD_CHUNK_SIZE contRes finResProcessing,
    pollStates := ["FAILED"], genText := some "hi" }

/-- A successful environment whose generation response text is empty. -/
def emptyGenEnv : Env :=
  { apiKey := some "K", initRes := demoInit,
    chunkRes := mkChunkRes 5 UPLOAD_CHUNK_SIZE contRes finResActive,
    pollStates := [], genText := some "" }

/-- An environment with no API key configured. -/
def noKeyEnv : Env :=
  { apiKey := none, initRes := demoInit,
    chunkRes := mkChunkRes 5 UPLOAD_CHUNK_SIZE contRes finResActive,
    pollStates := [], genText := some "hi" }

/-- An environment whose initiation response has no upload URL header. -/
def noUrlEnv : Env :=
  { apiKey := some "K",
    initRes := { ok := true, statusText := "OK", uploadUrlHeader := none },
    chunkRes := mkChunkRes 5 UPLOAD_CHUNK_SIZE contRes finResActive,
    pollStates := [], genText := some "hi" }

/-- A zero-byte file. -/
def emptyFile : MediaFile := { size := 0, name := "e.mp3", type := "audio/mpeg" }

/-! Arithmetic helpers for the ceiling division counting the chunks. -/

theorem ceilDiv_eq_one {m c : Nat} (h1 : 0 < m) (h2 : m ≤ c) : (m + c - 1) / c = 1 := by
  have hc : 0 < c := lt_of_lt_of_le h1 h2
  have he : m + c - 1 = (m - 1) + 1 * c := by omega
  rw [he, Nat.add_mul_div_right _ _ hc, Nat.div_eq_of_lt (by omega)]

theorem ceilDiv_step {m c : Nat} (hc : 0 < c) (h : c < m) :
    (m + c - 1) / c = ((m - c) + c - 1) / c + 1 := by
  have he : m + c - 1 = ((m - c) + c - 1) + 1 * c := by omega
  rw [he, Nat.add_mul_div_right _ _ hc]

theorem nFrom_eq_one {size csize offset : Nat} (h1 : offset < size)
    (h2 : size ≤ offset + csize) : nFrom size csize offset = 1 :=
  ceilDiv_eq_one (by omega) (by omega)

theorem nFrom_step {size csize offset : Nat} (hc : 0 < csize)
    (h : offset + csize < size) :
    nFrom size csize offset = nFrom size csize (offset + csize) + 1 := by
  unfold nFrom
  have hs := @ceilDiv_step (size - offset) csize hc (by omega)
  have he : size - offset - csize = size - (offset + csize) := by omega
  rw [he] at hs
  exact hs

theorem nFrom_pos {size csize offset : Nat} (h1 : offset < size) (hc : 0 < csize) :
    0 < nFrom size csize offset :=
  Nat.div_pos (by omega) hc

theorem nFrom_zero {size csize offset : Nat} (h : size ≤ offset) (hc : 0 < csize) :
    nFrom size csize offset = 0 := by
  unfold nFrom
  have he : size - offset = 0 := by omega
  rw [he]
  exact Nat.div_eq_of_lt (by omega)

/-! Properties of the progress percentage. -/

theorem pct_le_99 (size e : Nat) : pct size e ≤ 99 := Nat.min_le_right _ _

theorem pct_mono (size : Nat) {a b : Nat} (h : a ≤ b) : pct size a ≤ pct size b := by
  unfold pct
  exact min_le_min (Nat.div_le_div_right (by omega)) (le_refl _)

theorem pct_self (size : Nat) (h : 0 < size) : pct size size = 99 := by
  unfold pct
  have hq : (200 * size + size) / (2 * size) = 100 := by
    have he : 200 * size + size = 2 * size * 100 + size := by ring
    rw [he, Nat.mul_add_div (by omega)]
    rw [Nat.div_eq_of_lt (by omega : size < 2 * size)]
  rw [hq]
  omega

/-! Structure of the byte ranges generated by the chunk loop. -/

theorem chunksFrom_cons {size csize offset : Nat} (h1 : offset < size)
    (h2 : 0 < csize) :
    chunksFrom size csize offset =
      (offset, min (offset + csize) size - offset) ::
        chunksFrom size csize (min (offset + csize) size) := by
  conv_lhs => rw [chunksFrom]
  rw [dif_pos ⟨h1, h2⟩]

theorem chunksFrom_nil {size csize offset : Nat}
    (h : ¬ (offset < size ∧ 0 < csize)) : chunksFrom size csize offset = [] := by
  conv_lhs => rw [chunksFrom]
  rw [dif_neg h]

theorem chunksFrom_length (size csize offset : Nat) (hc : 0 < csize) :
    (chunksFrom size csize offset).length = nFrom size csize offset := by
  by_cases h : offset < size
  · rw [chunksFrom_cons h hc]
    by_cases h2 : offset + csize < size
    · have hm : min (offset + csize) size = offset + csize := by omega
      rw [hm]
      have ih := chunksFrom_length size csize (offset + csize) hc
      rw [List.length_cons, ih, nFrom_step hc h2]
    · have hm : min (offset + csize) size = size := by omega
      rw [hm, chunksFrom_nil (by omega)]
      rw [nFrom_eq_one h (by omega)]
      rfl
  · rw [chunksFrom_nil (by omega), nFrom_zero (by omega) hc]
    rfl
termination_by size - offset
decreasing_by omega

theorem chunksFrom_sum (size csize offset : Nat) (hc : 0 < csize)
    (ho : offset ≤ size) :
    ((chunksFrom size csize offset).map Prod.snd).sum = size - offset := by
  by_cases h : offset < size
  · rw [chunksFrom_cons h hc]
    have ih := chunksFrom_sum size csize (min (offset + csize) size) hc (by omega)
    rw [List.map_cons, List.sum_cons, ih]
    show min (offset + csize) size - offset + (size - min (offset + csize) size)
      = size - offset
    omega
  · rw [chunksFrom_nil (by omega)]
    show (0 : Nat) = size - offset
    omega
termination_by size - offset
decreasing_by omega

theorem chunksFrom_contig (size csize offset : Nat) :
    Contig offset (chunksFrom size csize offset) := by
  by_cases h : offset < size ∧ 0 < csize
  · rw [chunksFrom_cons h.1 h.2]
    refine ⟨rfl, by omega, ?_⟩
    have he : offset + (min (offset + csize) size - offset)
        = min (offset + csize) size := by omega
    rw [he]
    exact chunksFrom_contig size csize (min (offset + csize) size)
  · rw [chunksFrom_nil h]
    trivial
termination_by size - offset
decreasing_by omega

theorem chunksFrom_le (size csize offset : Nat) :
    ∀ p ∈ chunksFrom size csize offset, p.2 ≤ csize := by
  intro p hp
  by_cases h : offset < size ∧ 0 < csize
  · rw [chunksFrom_cons h.1 h.2] at hp
    rcases List.mem_cons.mp hp with h1 | h2
    · subst h1
      show min (offset + csize) size - offset ≤ csize
      omega
    · exact chunksFrom_le size csize (min (offset + csize) size) p h2
  · rw [chunksFrom_nil h] at hp
    cases hp
termination_by size - offset
decreasing_by omega

theorem dropLast_cons_cons {α : Type} (a b : α) (l : List α) :
    (a :: b :: l).dropLast = a :: (b :: l).dropLast := rfl

theorem chunksFrom_dropLast (size csize offset : Nat) :
    ∀ p ∈ (chunksFrom size csize offset).dropLast, p.2 = csize := by
  intro p hp
  by_cases h : offset < size ∧ 0 < csize
  · rw [chunksFrom_cons h.1 h.2] at hp
    rcases he : chunksFrom size csize (min (offset + csize) size) with _ | ⟨q, t⟩
    · rw [he] at hp
      cases hp
    · rw [he, dropLast_cons_cons] at hp
      have h3 : min (offset + csize) size < size := by
        by_contra hcon
        rw [chunksFrom_nil (by omega)] at he
        cases he
      rcases List.mem_cons.mp hp with h1 | h2
      · subst h1
        show min (offset + csize) size - offset = csize
        omega
      · rw [← he] at h2
        exact chunksFrom_dropLast size csize (min (offset + csize) size) p h2
  · rw [chunksFrom_nil h] at hp
    cases hp
termination_by size - offset
decreasing_by omega

/-! Trace-extraction lemmas. -/

theorem chunkReqs_append (l1 l2 : List Event) :
    chunkReqs (l1 ++ l2) = chunkReqs l1 ++ chunkReqs l2 := by
  induction l1 with
  | nil => rfl
  | cons e t ih => cases e <;> simp [chunkReqs, ih]

theorem progressVals_append (l1 l2 : List Event) :
    progressVals (l1 ++ l2) = progressVals l1 ++ progressVals l2 := by
  induction l1 with
  | nil => rfl
  | cons e t ih => cases e <;> simp [progressVals, ih]

theorem genReqs_append (l1 l2 : List Event) :
    genReqs (l1 ++ l2) = genReqs l1 ++ genReqs l2 := by
  induction l1 with
  | nil => rfl
  | cons e t ih => cases e <;> simp [genReqs, ih]

theorem chunkReqs_chunkTrace (url : String) (size : Nat) (ps : List (Nat × Nat)) :
    chunkReqs (chunkTrace url size ps) = ps := by
  induction ps with
  | nil => rfl
  | cons p t ih => simp [chunkTrace, chunkReqs, ih]

theorem progressVals_chunkTrace (url : String) (size : Nat) (ps : List (Nat × Nat)) :
    progressVals (chunkTrace url size ps) = ps.map (fun p => pct size (p.1 + p.2)) := by
  induction ps with
  | nil => rfl
  | cons p t ih => simp [chunkTrace, progressVals, ih]

theorem genReqs_chunkTrace (url : String) (size : Nat) (ps : List (Nat × Nat)) :
    genReqs (chunkTrace url size ps) = [] := by
  induction ps with
  | nil => rfl
  | cons p t ih => simp [chunkTrace, genReqs, ih]

theorem mem_chunkTrace_url (url : String) (size : Nat) (ps : List (Nat × Nat)) :
    ∀ u o l, Event.chunkRequest u o l ∈ chunkTrace url size ps → u = url := by
  induction ps with
  | nil => intro u o l h; cases h
  | cons p t ih =>
    intro u o l h
    rcases List.mem_cons.mp h with h1 | h2
    · cases h1; rfl
    · rcases List.mem_cons.mp h2 with h3 | h4
      · cases h3
      · exact ih u o l h4

theorem genRequest_notMem_chunkTrace (url : String) (size : Nat)
    (ps : List (Nat × Nat)) (m : String) (t : Option Nat) (mm : String) :
    Event.genRequest m t mm ∉ chunkTrace url size ps := by
  induction ps with
  | nil => intro h; cases h
  | cons p ts ih =>
    intro h
    rcases List.mem_cons.mp h with h1 | h2
    · cases h1
    · rcases List.mem_cons.mp h2 with h3 | h4
      · cases h3
      · exact ih h4

/-! Polling-loop lemmas. -/

theorem pollLoop_events (polls : List String) : ∀ (st : String),
    ∀ e ∈ (pollLoop st polls).2, e = Event.pollRequest := by
  induction polls with
  | nil =>
    intro st e he
    rw [pollLoop] at he
    split at he <;> cases he
  | cons s rest ih =>
    intro st e he
    rw [pollLoop] at he
    split at he
    · split at he
      · rcases List.mem_cons.mp he with h1 | h2
        · exact h1
        · cases h2
      · rcases List.mem_cons.mp he with h1 | h2
        · exact h1
        · exact ih s e h2
    · cases he

theorem chunkReqs_of_allPoll (l : List Event)
    (h : ∀ e ∈ l, e = Event.pollRequest) : chunkReqs l = [] := by
  induction l with
  | nil => rfl
  | cons e t ih =>
    have h1 := h e (List.mem_cons_self e t)
    subst h1
    show chunkReqs t = []
    exact ih (fun e he => h e (List.mem_cons_of_mem _ he))

theorem progressVals_of_allPoll (l : List Event)
    (h : ∀ e ∈ l, e = Event.pollRequest) : progressVals l = [] := by
  induction l with
  | nil => rfl
  | cons e t ih =>
    have h1 := h e (List.mem_cons_self e t)
    subst h1
    show progressVals t = []
    exact ih (fun e he => h e (List.mem_cons_of_mem _ he))

theorem genReqs_of_allPoll (l : List Event)
    (h : ∀ e ∈ l, e = Event.pollRequest) : genReqs l = [] := by
  induction l with
  | nil => rfl
  | cons e t ih =>
    have h1 := h e (List.mem_cons_self e t)
    subst h1
    show genReqs t = []
    exact ih (fun e he => h e (List.mem_cons_of_mem _ he))

theorem chunkReqs_pollLoop (polls : List String) (st : String) :
    chunkReqs (pollLoop st polls).2 = [] :=
  chunkReqs_of_allPoll _ (pollLoop_events polls st)

theorem progressVals_pollLoop (polls : List String) (st : String) :
    progressVals (pollLoop st polls).2 = [] :=
  progressVals_of_allPoll _ (pollLoop_events polls st)

theorem genReqs_pollLoop (polls : List String) (st : String) :
    genReqs (pollLoop st polls).2 = [] :=
  genReqs_of_allPoll _ (pollLoop_events polls st)

/-! The closed form of the chunk loop against a protocol-conforming server:
the trace is the chunk/progress interleaving of the byte ranges, followed by
the polling events, and the outcome is determined by the polling result on
the state reported with the final chunk. -/

theorem uploadLoopF_conf (ch : Nat → ChunkResponse) (size csize : Nat)
    (url : String) (polls : List String) (hc : 0 < csize) :
    ∀ (fuel idx offset : Nat), offset < size → size ≤ offset + fuel →
    (∀ j, if offset + (j+1) * csize < size then (ch (idx+j)).status = 308
          else ((ch (idx+j)).ok = true ∧ (ch (idx+j)).status ≠ 308)) →
    uploadLoopF ch size csize url polls fuel idx offset =
      ((match (pollLoop (ch (idx + nFrom size csize offset - 1)).json.state polls).1 with
        | Outcome.ok _ => Outcome.ok (ch (idx + nFrom size csize offset - 1)).json.uri
        | Outcome.err m => Outcome.err m
        | Outcome.diverge => Outcome.diverge),
       chunkTrace url size (chunksFrom size csize offset) ++
         (pollLoop (ch (idx + nFrom size csize offset - 1)).json.state polls).2) := by
  intro fuel
  induction fuel with
  | zero => intro idx offset h1 h2 hcf; omega
  | succ fuel ih =>
    intro idx offset h1 h2 hcf
    have hc0 := hcf 0
    simp only [Nat.zero_add, Nat.one_mul, Nat.add_zero] at hc0
    rw [uploadLoopF, if_pos h1]
    by_cases h3 : offset + csize < size
    · -- intermediate chunk: 308 response, continue
      rw [if_pos h3] at hc0
      have hm : min (offset + csize) size = offset + csize := by omega
      have he3 : offset + csize - offset = csize := by omega
      have hcf' : ∀ j, if (offset + csize) + (j+1) * csize < size
          then (ch ((idx+1)+j)).status = 308
          else ((ch ((idx+1)+j)).ok = true ∧ (ch ((idx+1)+j)).status ≠ 308) := by
        intro j
        have hj := hcf (j+1)
        have e1 : idx + (j+1) = (idx+1) + j := by omega
        have e2 : offset + (j+1+1) * csize = (offset + csize) + (j+1) * csize := by
          ring
        rw [e1, e2] at hj
        exact hj
      have hrec := ih (idx+1) (offset+csize) h3 (by omega) hcf'
      have hn1 := nFrom_step hc h3
      have hn2 := @nFrom_pos size csize (offset + csize) h3 hc
      have hn : idx + nFrom size csize offset - 1
          = (idx+1) + nFrom size csize (offset+csize) - 1 := by omega
      have hne : ¬((ch idx).status ≠ 308 ∧ (ch idx).ok = false) := by
        simp [hc0]
      have hne2 : ¬((ch idx).ok = true ∧ (ch idx).status ≠ 308) := by
        simp [hc0]
      rw [chunksFrom_cons h1 hc, hm, he3]
      simp only [hm, he3, if_neg hne, if_neg hne2, hrec, hn, chunkTrace]
      simp [List.cons_append]
    · -- final chunk: ok non-308 response, parse body and poll
      rw [if_neg h3] at hc0
      have hm : min (offset + csize) size = size := by omega
      have hn : nFrom size csize offset = 1 :=
        @nFrom_eq_one size csize offset h1 (by omega)
      have hes : offset + (size - offset) = size := by omega
      have hnil : chunksFrom size csize size = [] := chunksFrom_nil (by omega)
      have hne : ¬((ch idx).status ≠ 308 ∧ (ch idx).ok = false) := by
        simp [hc0.1]
      rw [chunksFrom_cons h1 hc, hm, hnil]
      simp only [hm, if_neg hne, if_pos hc0, chunkTrace, hes, hn,
        Nat.add_sub_cancel]
      simp [List.cons_append]

/-- A run whose first n chunk responses are 308 on non-final chunks and whose
n-th response has an unexpected status (neither 308 nor ok) throws the upload
error carrying the failing offset, status, statusText and body, after exactly
the n accepted chunk requests and the one failing request. -/
theorem uploadLoopF_errAt (ch : Nat → ChunkResponse) (size csize : Nat)
    (url : String) (polls : List String) (hc : 0 < csize) :
    ∀ (n fuel idx offset : Nat), offset < size → size ≤ offset + fuel →
    (∀ j, j < n → (ch (idx+j)).status = 308 ∧ offset + (j+1) * csize < size) →
    (ch (idx+n)).status ≠ 308 → (ch (idx+n)).ok = false →
    uploadLoopF ch size csize url polls fuel idx offset =
      (Outcome.err ("Upload failed at offset " ++ toString (offset + n * csize) ++
         ": " ++ toString (ch (idx+n)).status ++ " " ++ (ch (idx+n)).statusText ++
         " - " ++ (ch (idx+n)).bodyText),
       chunkTrace url size (contChunks offset csize n) ++
         [Event.chunkRequest url (offset + n * csize)
           (min (offset + n * csize + csize) size - (offset + n * csize))]) := by
  intro n
  induction n with
  | zero =>
    intro fuel idx offset h1 h2 hcont hb1 hb2
    cases fuel with
    | zero => omega
    | succ fuel =>
      simp only [Nat.add_zero] at hb1 hb2
      rw [uploadLoopF, if_pos h1, if_pos ⟨hb1, hb2⟩]
      simp [contChunks, chunkTrace]
  | succ n ihn =>
    intro fuel idx offset h1 h2 hcont hb1 hb2
    cases fuel with
    | zero => omega
    | succ fuel =>
      have hc0 := hcont 0 (by omega)
      simp only [Nat.add_zero, Nat.zero_add, Nat.one_mul] at hc0
      rw [uploadLoopF, if_pos h1]
      have hm : min (offset + csize) size = offset + csize := by omega
      have hne : ¬((ch idx).status ≠ 308 ∧ (ch idx).ok = false) := by
        simp [hc0.1]
      have hne2 : ¬((ch idx).ok = true ∧ (ch idx).status ≠ 308) := by
        simp [hc0.1]
      have hcont' : ∀ j, j < n → (ch ((idx+1)+j)).status = 308 ∧
          (offset + csize) + (j+1) * csize < size := by
        intro j hj
        have hj2 := hcont (j+1) (by omega)
        have e1 : idx + (j+1) = (idx+1) + j := by omega
        have e2 : offset + (j+1+1) * csize = (offset + csize) + (j+1) * csize := by
          ring
        rw [e1, e2] at hj2
        exact hj2
      have e1 : idx + (n+1) = (idx+1) + n := by omega
      rw [e1] at hb1 hb2
      have hrec := ihn fuel (idx+1) (offset+csize) hc0.2 (by omega) hcont' hb1 hb2
      have e3 : offset + csize - offset = csize := by omega
      have e4 : offset + csize + n * csize = offset + (n+1) * csize := by ring
      simp only [hm, if_neg hne, if_neg hne2, hrec, e3]
      simp only [e4, contChunks, chunkTrace]
      simp [List.cons_append, e1]

/-- Every chunk request of the loop targets the single session URL computed
before the loop, whatever the server answers. -/
theorem uploadLoopF_url (ch : Nat → ChunkResponse) (size csize : Nat)
    (url : String) (polls : List String) :
    ∀ (fuel idx offset : Nat) (u : String) (o l : Nat),
    Event.chunkRequest u o l ∈ (uploadLoopF ch size csize url polls fuel idx offset).2 →
    u = url := by
  intro fuel
  induction fuel with
  | zero => intro idx offset u o l h; cases h
  | succ fuel ih =>
    intro idx offset u o l h
    rw [uploadLoopF] at h
    by_cases h1 : offset < size
    · rw [if_pos h1] at h
      by_cases h2 : (ch idx).status ≠ 308 ∧ (ch idx).ok = false
      · rw [if_pos h2] at h
        rcases List.mem_singleton.mp h with h3
        injection h3 with hu ho hl
      · rw [if_neg h2] at h
        by_cases h3 : (ch idx).ok = true ∧ (ch idx).status ≠ 308
        · rw [if_pos h3] at h
          rcases List.mem_cons.mp h with ha | hb
          · injection ha with hu ho hl
          · rcases List.mem_cons.mp hb with hcc | hd
            · cases hcc
            · have hpoll := pollLoop_events polls (ch idx).json.state _ hd
              cases hpoll
        · rw [if_neg h3] at h
          rcases List.mem_cons.mp h with ha | hb
          · injection ha with hu ho hl
          · rcases List.mem_cons.mp hb with hcc | hd
            · cases hcc
            · exact ih (idx+1) (min (offset + csize) size) u o l hd
    · rw [if_neg h1] at h
      cases h

/-- Unfolding uploadToGemini against a conforming server. -/
theorem uploadToGemini_conf (env : Env) (f : MediaFile) (k raw : String)
    (hi : env.initRes.ok = true)
    (hu : env.initRes.uploadUrlHeader = some raw)
    (hS : 0 < f.size)
    (hcf : Conforming env.chunkRes f.size UPLOAD_CHUNK_SIZE) :
    uploadToGemini env f k =
      ((match (pollLoop (env.chunkRes
            (nFrom f.size UPLOAD_CHUNK_SIZE 0 - 1)).json.state env.pollStates).1 with
        | Outcome.ok _ => Outcome.ok (env.chunkRes
            (nFrom f.size UPLOAD_CHUNK_SIZE 0 - 1)).json.uri
        | Outcome.err m => Outcome.err m
        | Outcome.diverge => Outcome.diverge),
       Event.initRequest ::
         (chunkTrace (ensureKey k raw) f.size
            (chunksFrom f.size UPLOAD_CHUNK_SIZE 0) ++
          (pollLoop (env.chunkRes
            (nFrom f.size UPLOAD_CHUNK_SIZE 0 - 1)).json.state env.pollStates).2)) := by
  have hcpos : 0 < UPLOAD_CHUNK_SIZE := by unfold UPLOAD_CHUNK_SIZE; omega
  have hmain := uploadLoopF_conf env.chunkRes f.size UPLOAD_CHUNK_SIZE
    (ensureKey k raw) env.pollStates hcpos (f.size + 1) 0 0 hS (by omega)
    (by intro j; simpa using hcf j)
  simp only [Nat.zero_add] at hmain
  unfold uploadToGemini
  rw [if_neg (by simp [hi]), hu]
  dsimp only
  rw [hmain]

/-- A successful end-to-end run of transcribeMedia against a conforming
server whose polling ends without failure. -/
theorem transcribeMedia_run_ok (env : Env) (f : MediaFile) (mt : String)
    (c : Bool) (k raw : String)
    (hk : env.apiKey = some k) (hk2 : ¬ k = "")
    (hi : env.initRes.ok = true)
    (hu : env.initRes.uploadUrlHeader = some raw)
    (hS : 0 < f.size)
    (hcf : Conforming env.chunkRes f.size UPLOAD_CHUNK_SIZE)
    (hpoll : (pollLoop (env.chunkRes
        (nFrom f.size UPLOAD_CHUNK_SIZE 0 - 1)).json.state env.pollStates).1
      = Outcome.ok ()) :
    transcribeMedia env f mt c =
      (Outcome.ok (genTextOf env),
       (Event.initRequest ::
         (chunkTrace (ensureKey k raw) f.size
            (chunksFrom f.size UPLOAD_CHUNK_SIZE 0) ++
          (pollLoop (env.chunkRes
            (nFrom f.size UPLOAD_CHUNK_SIZE 0 - 1)).json.state env.pollStates).2)) ++
        [Event.progress 100,
         Event.genRequest (if c then GEMINI_PRO_MODEL else GEMINI_FLASH_MODEL)
           (if c then some 32768 else none) (safeMime mt f)]) := by
  unfold transcribeMedia
  rw [hk]
  dsimp only
  rw [if_neg hk2, uploadToGemini_conf env f k raw hi hu hS hcf, hpoll]
  rfl

/-- A run of transcribeMedia against a conforming server whose polling ends
in an error: the error propagates and no generation request is made. -/
theorem transcribeMedia_run_err (env : Env) (f : MediaFile) (mt : String)
    (c : Bool) (k raw msg : String)
    (hk : env.apiKey = some k) (hk2 : ¬ k = "")
    (hi : env.initRes.ok = true)
    (hu : env.initRes.uploadUrlHeader = some raw)
    (hS : 0 < f.size)
    (hcf : Conforming env.chunkRes f.size UPLOAD_CHUNK_SIZE)
    (hpoll : (pollLoop (env.chunkRes
        (nFrom f.size UPLOAD_CHUNK_SIZE 0 - 1)).json.state env.pollStates).1
      = Outcome.err msg) :
    transcribeMedia env f mt c =
      (Outcome.err msg,
       Event.initRequest ::
         (chunkTrace (ensureKey k raw) f.size
            (chunksFrom f.size UPLOAD_CHUNK_SIZE 0) ++
          (pollLoop (env.chunkRes
            (nFrom f.size UPLOAD_CHUNK_SIZE 0 - 1)).json.state env.pollStates).2)) := by
  unfold transcribeMedia
  rw [hk]
  dsimp only
  rw [if_neg hk2, uploadToGemini_conf env f k raw hi hu hS hcf, hpoll]

/-- Polling that sees only PROCESSING answers and then FAILED throws the
processing-failure error after exactly those status checks. -/
theorem pollLoop_failed (procs rest : List String)
    (hp : ∀ p ∈ procs, p = "PROCESSING") :
    pollLoop "PROCESSING" (procs ++ "FAILED" :: rest) =
      (Outcome.err "File processing failed on Gemini servers.",
       List.replicate (procs.length + 1) Event.pollRequest) := by
  induction procs with
  | nil =>
    rw [List.nil_append, pollLoop, if_pos rfl, if_pos rfl]
    rfl
  | cons p t ih =>
    have hp1 := hp p (List.mem_cons_self p t)
    subst hp1
    rw [List.cons_append, pollLoop, if_pos rfl,
      if_neg (by decide : ¬ ("PROCESSING" : String) = "FAILED")]
    rw [ih (fun q hq => hp q (List.mem_cons_of_mem _ hq))]
    rfl

/-- The canonical conforming oracle really is conforming. -/
theorem mkChunkRes_conforming (size csize : Nat) (cont fin : ChunkResponse)
    (h1 : cont.status = 308) (h2 : fin.ok = true) (h3 : fin.status ≠ 308) :
    Conforming (mkChunkRes size csize cont fin) size csize := by
  intro i
  unfold mkChunkRes
  by_cases h : (i+1) * csize < size
  · rw [if_pos h, if_pos h]
    exact h1
  · rw [if_neg h, if_neg h]
    exact ⟨h2, h3⟩

theorem chunksFrom_pos (size csize offset : Nat) :
    ∀ p ∈ chunksFrom size csize offset, 0 < p.2 := by
  intro p hp
  by_cases h : offset < size ∧ 0 < csize
  · rw [chunksFrom_cons h.1 h.2] at hp
    rcases List.mem_cons.mp hp with h1 | h2
    · subst h1
      show 0 < min (offset + csize) size - offset
      omega
    · exact chunksFrom_pos size csize (min (offset + csize) size) p h2
  · rw [chunksFrom_nil h] at hp
    cases hp
termination_by size - offset
decreasing_by omega

theorem contChunks_length (offset csize : Nat) :
    ∀ n, (contChunks offset csize n).length = n := by
  intro n
  induction n generalizing offset with
  | zero => rfl
  | succ n ih =>
    show (contChunks (offset + csize) csize n).length + 1 = n + 1
    rw [ih]

theorem progress_mem_chunkTrace (url : String) (size : Nat)
    (ps : List (Nat × Nat)) :
    ∀ n, Event.progress n ∈ chunkTrace url size ps → n ≤ 99 := by
  induction ps with
  | nil => intro n h; cases h
  | cons p t ih =>
    intro n h
    rcases List.mem_cons.mp h with h1 | h2
    · cases h1
    · rcases List.mem_cons.mp h2 with h3 | h4
      · injection h3 with hn
        rw [hn]
        exact pct_le_99 size (p.1 + p.2)
      · exact ih n h4

/-- The progress values of a conforming run, with the final 100 appended,
form a non-decreasing sequence: each chunk ends no earlier than the previous
one and the percentage is monotone in the byte position. -/
theorem pctChain (size csize : Nat) : ∀ offset,
    List.Chain' (fun a b => a ≤ b)
      (((chunksFrom size csize offset).map (fun p => pct size (p.1 + p.2))) ++ [100]) := by
  intro offset
  by_cases h : offset < size ∧ 0 < csize
  · rw [chunksFrom_cons h.1 h.2, List.map_cons, List.cons_append]
    dsimp only
    have he2 : offset + (min (offset + csize) size - offset)
        = min (offset + csize) size := by omega
    rw [he2]
    have ih := pctChain size csize (min (offset + csize) size)
    rcases he : chunksFrom size csize (min (offset + csize) size) with _ | ⟨q, t⟩
    · rw [he] at ih
      simp only [List.map_nil, List.nil_append] at ih ⊢
      refine List.chain'_cons.mpr ⟨?_, ih⟩
      exact le_trans (pct_le_99 _ _) (by omega)
    · rw [he] at ih
      rw [List.map_cons, List.cons_append] at ih ⊢
      refine List.chain'_cons.mpr ⟨?_, ih⟩
      have hcg := chunksFrom_contig size csize (min (offset + csize) size)
      rw [he] at hcg
      have hq1 : q.1 = min (offset + csize) size := hcg.1
      have hq2 : 0 < q.2 := hcg.2.1
      exact pct_mono size (by omega)
  · rw [chunksFrom_nil h]
    simp
termination_by offset => size - offset
decreasing_by omega

/-- Appending the key parameter makes the credential marker present. -/
theorem includes_append_key (pre k : String) :
    includes (pre ++ "key=" ++ k) "key=" = true := by
  unfold includes
  rw [decide_eq_true_eq]
  exact ⟨pre.data, k.data, by simp [String.data_append, List.append_assoc]⟩

/-- ensureKey always leaves the access credential marker in the URL. -/
theorem ensureKey_includes (k u : String) :
    includes (ensureKey k u) "key=" = true := by
  unfold ensureKey
  cases hb : includes u "key=" with
  | true =>
    simp only [Bool.not_true]
    rw [if_neg (by simp)]
    exact hb
  | false =>
    simp only [Bool.not_false]
    rw [if_pos trivial]
    exact includes_append_key _ _

/-- ensureKey leaves a URL that already carries the credential unchanged. -/
theorem ensureKey_of_includes (k u : String) (h : includes u "key=" = true) :
    ensureKey k u = u := by
  unfold ensureKey
  rw [h]
  simp only [Bool.not_true]
  rw [if_neg (by simp)]

/-- Claim C1: against a protocol-conforming server, for every file size S > 0
and fixed chunk size C > 0 the upload loop of uploadToGemini sends exactly
ceil(S/C) chunk requests; the chunks are contiguous non-overlapping byte
ranges starting at offset 0 whose lengths sum to S; every chunk except
possibly a smaller final one has length exactly C (and every chunk is
nonempty and at most C); and the loop terminates after exactly that many
iterations (one chunk request per iteration), for any fuel bound covering
the file. -/
theorem claim_C1_chunk_partition (ch : Nat → ChunkResponse) (S C : Nat)
    (url : String) (polls : List String) (fuel : Nat)
    (hS : 0 < S) (hC : 0 < C) (hfuel : S ≤ fuel) (hcf : Conforming ch S C) :
    (chunkReqs (uploadLoopF ch S C url polls fuel 0 0).2).length = (S + C - 1) / C ∧
    Contig 0 (chunkReqs (uploadLoopF ch S C url polls fuel 0 0).2) ∧
    ((chunkReqs (uploadLoopF ch S C url polls fuel 0 0).2).map Prod.snd).sum = S ∧
    (∀ p ∈ (chunkReqs (uploadLoopF ch S C url polls fuel 0 0).2).dropLast, p.2 = C) ∧
    (∀ p ∈ chunkReqs (uploadLoopF ch S C url polls fuel 0 0).2, 0 < p.2 ∧ p.2 ≤ C) := by
  have hmain := uploadLoopF_conf ch S C url polls hC fuel 0 0 hS (by omega)
    (by intro j; simpa using hcf j)
  rw [hmain]
  dsimp only
  rw [chunkReqs_append, chunkReqs_chunkTrace, chunkReqs_pollLoop, List.append_nil]
  refine ⟨?_, chunksFrom_contig S C 0, ?_, chunksFrom_dropLast S C 0, ?_⟩
  · rw [chunksFrom_length S C 0 hC]
    unfold nFrom
    rw [Nat.sub_zero]
  · rw [chunksFrom_sum S C 0 hC (by omega)]
    omega
  · intro p hp
    exact ⟨chunksFrom_pos S C 0 p hp, chunksFrom_le S C 0 p hp⟩

/-- Claim C1 witness: a 20-byte file with 8-byte chunks and a conforming
server gives 3 chunks. -/
theorem claim_C1_chunk_partition_witness :
    (chunkReqs (uploadLoopF (mkChunkRes 20 8 contRes finResActive) 20 8 "u" []
        21 0 0).2).length = (20 + 8 - 1) / 8 ∧
    Contig 0 (chunkReqs (uploadLoopF (mkChunkRes 20 8 contRes finResActive) 20 8 "u" []
        21 0 0).2) ∧
    ((chunkReqs (uploadLoopF (mkChunkRes 20 8 contRes finResActive) 20 8 "u" []
        21 0 0).2).map Prod.snd).sum = 20 ∧
    (∀ p ∈ (chunkReqs (uploadLoopF (mkChunkRes 20 8 contRes finResActive) 20 8 "u" []
        21 0 0).2).dropLast, p.2 = 8) ∧
    (∀ p ∈ chunkReqs (uploadLoopF (mkChunkRes 20 8 contRes finResActive) 20 8 "u" []
        21 0 0).2, 0 < p.2 ∧ p.2 ≤ 8) :=
  claim_C1_chunk_partition (mkChunkRes 20 8 contRes finResActive) 20 8 "u" [] 21
    (by decide) (by decide) (by decide)
    (mkChunkRes_conforming 20 8 contRes finResActive rfl (by decide) (by decide))

/-- Claim C6: with no API key in the process environment, transcribeMedia
fails with the configuration error and issues zero network requests (empty
trace, so the failure precedes even session initiation). -/
theorem claim_C6_missing_key (env : Env) (f : MediaFile) (mt : String)
    (c : Bool) (h : env.apiKey = none) :
    transcribeMedia env f mt c
      = (Outcome.err "API Key not found in environment variables.", []) := by
  unfold transcribeMedia
  rw [h]

/-- Claim C6 witness. -/
theorem claim_C6_missing_key_witness :
    noKeyEnv.apiKey = none ∧
    transcribeMedia noKeyEnv demoFile "audio/mpeg" true
      = (Outcome.err "API Key not found in environment variables.", []) :=
  ⟨rfl, claim_C6_missing_key noKeyEnv demoFile "audio/mpeg" true rfl⟩

/-- Claim C7: if the session-initiation response omits the upload URL, the
run fails with the protocol error and no chunk request is ever sent: the
trace is exactly the initiation request. -/
theorem claim_C7_no_session_url (env : Env) (f : MediaFile) (mt : String)
    (c : Bool) (k : String)
    (hk : env.apiKey = some k) (hk2 : ¬ k = "")
    (hi : env.initRes.ok = true)
    (hu : env.initRes.uploadUrlHeader = none) :
    transcribeMedia env f mt c
      = (Outcome.err "No upload URL received from Gemini API",
         [Event.initRequest]) ∧
    ∀ u o l, Event.chunkRequest u o l ∉ (transcribeMedia env f mt c).2 := by
  have heq : transcribeMedia env f mt c
      = (Outcome.err "No upload URL received from Gemini API",
         [Event.initRequest]) := by
    unfold transcribeMedia
    rw [hk]
    dsimp only
    rw [if_neg hk2]
    unfold uploadToGemini
    rw [if_neg (by simp [hi]), hu]
  refine ⟨heq, ?_⟩
  intro u o l hm
  rw [heq] at hm
  cases List.mem_singleton.mp hm

/-- Claim C7 witness. -/
theorem claim_C7_no_session_url_witness :
    (transcribeMedia noUrlEnv demoFile "audio/mpeg" true
      = (Outcome.err "No upload URL received from Gemini API",
         [Event.initRequest]) ∧
    ∀ u o l, Event.chunkRequest u o l ∉
      (transcribeMedia noUrlEnv demoFile "audio/mpeg" true).2) :=
  claim_C7_no_session_url noUrlEnv demoFile "audio/mpeg" true "K"
    rfl (by decide) rfl rfl

/-- Claim C10: for a zero-byte file the chunk loop body is never entered:
after the session-initiation request has been issued, uploadToGemini throws
the loop-exhaustion error, returns no file URI, and sends no chunk request
(the trace is exactly the initiation request). -/
theorem claim_C10_zero_size (env : Env) (f : MediaFile) (k raw : String)
    (hi : env.initRes.ok = true)
    (hu : env.initRes.uploadUrlHeader = some raw)
    (hz : f.size = 0) :
    uploadToGemini env f k
      = (Outcome.err "Upload loop finished without returning URI",
         [Event.initRequest]) := by
  unfold uploadToGemini
  rw [if_neg (by simp [hi]), hu]
  dsimp only
  rw [hz, uploadLoopF, if_neg (by omega)]

/-- Claim C10 witness. -/
theorem claim_C10_zero_size_witness :
    emptyFile.size = 0 ∧
    uploadToGemini demoEnv emptyFile "K"
      = (Outcome.err "Upload loop finished without returning URI",
         [Event.initRequest]) :=
  ⟨rfl, claim_C10_zero_size demoEnv emptyFile "K"
    "https://u.example/upload?uid=1" rfl rfl rfl⟩

/-- Claim C3: session initiation normalizes a relative target URL (one that
starts with a slash) into an absolute one on the known API host, embeds the
key= credential into the target URL when it is not already present (and
leaves an absolute URL that already carries it unchanged), and every
subsequent chunk request of the run reuses this single session target. -/
theorem claim_C3_session_url (env : Env) (f : MediaFile) (k raw : String)
    (hi : env.initRes.ok = true)
    (hu : env.initRes.uploadUrlHeader = some raw) :
    (raw.startsWith "/" = true →
      (normalizeResumableUrl k raw = GEMINI_HOST ++ raw ∨
       ∃ sep, (sep = "?" ∨ sep = "&") ∧
         normalizeResumableUrl k raw = GEMINI_HOST ++ raw ++ sep ++ "key=" ++ k)) ∧
    includes (normalizeResumableUrl k raw) "key=" = true ∧
    (raw.startsWith "/" = false → includes raw "key=" = true →
      normalizeResumableUrl k raw = raw) ∧
    includes (ensureKey k raw) "key=" = true ∧
    (∀ u o l, Event.chunkRequest u o l ∈ (uploadToGemini env f k).2 →
      u = ensureKey k raw) := by
  refine ⟨?_, ?_, ?_, ensureKey_includes k raw, ?_⟩
  · intro hst
    unfold normalizeResumableUrl
    dsimp only
    rw [if_pos hst]
    unfold ensureKey
    cases hin : includes (GEMINI_HOST ++ raw) "key=" with
    | true =>
      simp only [Bool.not_true]
      rw [if_neg (by simp)]
      exact Or.inl rfl
    | false =>
      simp only [Bool.not_false]
      rw [if_pos trivial]
      cases hq : includes (GEMINI_HOST ++ raw) "?" with
      | true => exact Or.inr ⟨"&", Or.inr rfl, rfl⟩
      | false => exact Or.inr ⟨"?", Or.inl rfl, rfl⟩
  · unfold normalizeResumableUrl
    dsimp only
    exact ensureKey_includes k _
  · intro hst hinc
    unfold normalizeResumableUrl
    dsimp only
    rw [if_neg (by simp [hst])]
    exact ensureKey_of_includes k raw hinc
  · intro u o l hm
    unfold uploadToGemini at hm
    rw [if_neg (by simp [hi]), hu] at hm
    dsimp only at hm
    rcases List.mem_cons.mp hm with h1 | h2
    · cases h1
    · exact uploadLoopF_url env.chunkRes f.size UPLOAD_CHUNK_SIZE
        (ensureKey k raw) env.pollStates (f.size + 1) 0 0 u o l h2

/-- Claim C3 witness. -/
theorem claim_C3_session_url_witness :
    (("https://u.example/upload?uid=1" : String).startsWith "/" = true →
      (normalizeResumableUrl "K" "https://u.example/upload?uid=1"
          = GEMINI_HOST ++ "https://u.example/upload?uid=1" ∨
       ∃ sep, (sep = "?" ∨ sep = "&") ∧
         normalizeResumableUrl "K" "https://u.example/upload?uid=1"
           = GEMINI_HOST ++ "https://u.example/upload?uid=1" ++ sep
              ++ "key=" ++ "K")) ∧
    includes (normalizeResumableUrl "K" "https://u.example/upload?uid=1")
      "key=" = true ∧
    (("https://u.example/upload?uid=1" : String).startsWith "/" = false →
      includes "https://u.example/upload?uid=1" "key=" = true →
      normalizeResumableUrl "K" "https://u.example/upload?uid=1"
        = "https://u.example/upload?uid=1") ∧
    includes (ensureKey "K" "https://u.example/upload?uid=1") "key=" = true ∧
    (∀ u o l, Event.chunkRequest u o l ∈ (uploadToGemini demoEnv demoFile "K").2 →
      u = ensureKey "K" "https://u.example/upload?uid=1") :=
  claim_C3_session_url demoEnv demoFile "K" "https://u.example/upload?uid=1"
    rfl rfl

/-- Claim C8: if every chunk request before the n-th is answered 308 on a
non-final byte range and the n-th receives an unexpected status (neither 308
nor ok), the run fails immediately with the upload error carrying the
failing offset, status code, status text and body excerpt, and no further
chunk request is sent: the chunk requests are exactly the n accepted ones
followed by the failing one. -/
theorem claim_C8_midstream_error (env : Env) (f : MediaFile) (mt : String)
    (c : Bool) (k raw : String) (n : Nat)
    (hk : env.apiKey = some k) (hk2 : ¬ k = "")
    (hi : env.initRes.ok = true)
    (hu : env.initRes.uploadUrlHeader = some raw)
    (hS : 0 < f.size)
    (hcont : ∀ j, j < n → (env.chunkRes j).status = 308 ∧
      (j+1) * UPLOAD_CHUNK_SIZE < f.size)
    (hb1 : (env.chunkRes n).status ≠ 308)
    (hb2 : (env.chunkRes n).ok = false) :
    (transcribeMedia env f mt c).1 =
      Outcome.err ("Upload failed at offset " ++ toString (n * UPLOAD_CHUNK_SIZE)
        ++ ": " ++ toString (env.chunkRes n).status ++ " "
        ++ (env.chunkRes n).statusText ++ " - " ++ (env.chunkRes n).bodyText) ∧
    chunkReqs (transcribeMedia env f mt c).2 =
      contChunks 0 UPLOAD_CHUNK_SIZE n ++
        [(n * UPLOAD_CHUNK_SIZE,
          min (n * UPLOAD_CHUNK_SIZE + UPLOAD_CHUNK_SIZE) f.size
            - n * UPLOAD_CHUNK_SIZE)] ∧
    (chunkReqs (transcribeMedia env f mt c).2).length = n + 1 := by
  have hcpos : 0 < UPLOAD_CHUNK_SIZE := by unfold UPLOAD_CHUNK_SIZE; omega
  have herr := uploadLoopF_errAt env.chunkRes f.size UPLOAD_CHUNK_SIZE
    (ensureKey k raw) env.pollStates hcpos n (f.size + 1) 0 0 hS (by omega)
    (by intro j hj; simpa using hcont j hj)
    (by simpa using hb1) (by simpa using hb2)
  simp only [Nat.zero_add] at herr
  unfold transcribeMedia
  rw [hk]
  dsimp only
  rw [if_neg hk2]
  unfold uploadToGemini
  rw [if_neg (by simp [hi]), hu]
  dsimp only
  rw [herr]
  dsimp only
  refine ⟨rfl, ?_, ?_⟩
  · simp only [chunkReqs, chunkReqs_append, chunkReqs_chunkTrace]
  · simp [chunkReqs, chunkReqs_append, chunkReqs_chunkTrace,
      List.length_append, contChunks_length]

/-- Claim C8 witness: a file of 8 MiB + 5 bytes whose second chunk request
gets a 500 response. -/
theorem claim_C8_midstream_error_witness :
    (transcribeMedia errEnv bigFile "video/mp4" true).1 =
      Outcome.err ("Upload failed at offset " ++ toString (1 * UPLOAD_CHUNK_SIZE)
        ++ ": " ++ toString (errEnv.chunkRes 1).status ++ " "
        ++ (errEnv.chunkRes 1).statusText ++ " - " ++ (errEnv.chunkRes 1).bodyText) ∧
    chunkReqs (transcribeMedia errEnv bigFile "video/mp4" true).2 =
      contChunks 0 UPLOAD_CHUNK_SIZE 1 ++
        [(1 * UPLOAD_CHUNK_SIZE,
          min (1 * UPLOAD_CHUNK_SIZE + UPLOAD_CHUNK_SIZE) bigFile.size
            - 1 * UPLOAD_CHUNK_SIZE)] ∧
    (chunkReqs (transcribeMedia errEnv bigFile "video/mp4" true).2).length = 1 + 1 :=
  claim_C8_midstream_error errEnv bigFile "video/mp4" true "K"
    "https://u.example/upload?uid=1" 1 rfl (by decide) rfl rfl (by decide)
    (by decide) (by decide) (by decide)

/-- Claim C2 counterexample: in a successful single-chunk run the sequence
of values passed to onProgress is [99, 100] — the first value is 99, not 0,
so the claimed "0 at start" is false of the code: transcribeMedia never
passes an initial 0 to the callback. -/
theorem claim_C2_counterexample :
    progressVals (transcribeMedia demoEnv demoFile "audio/mpeg" false).2
      = [99, 100] ∧
    (progressVals (transcribeMedia demoEnv demoFile "audio/mpeg" false).2).head?
      ≠ some 0 ∧
    (transcribeMedia demoEnv demoFile "audio/mpeg" false).1
      = Outcome.ok "hello" := by
  decide

/-- Claim C2 (amended): across a successful run of transcribeMedia against a
conforming server, the values passed to onProgress are exactly the per-chunk
integer percentages followed by a single 100: non-decreasing, at most 99
until the final poll has succeeded (every value but the last is at most 99,
and the final 100 follows every poll request), with 100 emitted exactly
once, at the end.  No initial 0 is emitted: the first value is the first
chunk's percentage. -/
theorem claim_C2_progress_contract (env : Env) (f : MediaFile) (mt : String)
    (c : Bool) (k raw : String)
    (hk : env.apiKey = some k) (hk2 : ¬ k = "")
    (hi : env.initRes.ok = true)
    (hu : env.initRes.uploadUrlHeader = some raw)
    (hS : 0 < f.size)
    (hcf : Conforming env.chunkRes f.size UPLOAD_CHUNK_SIZE)
    (hpoll : (pollLoop (env.chunkRes
        (nFrom f.size UPLOAD_CHUNK_SIZE 0 - 1)).json.state env.pollStates).1
      = Outcome.ok ()) :
    progressVals (transcribeMedia env f mt c).2
      = ((chunksFrom f.size UPLOAD_CHUNK_SIZE 0).map
          (fun p => pct f.size (p.1 + p.2))) ++ [100] ∧
    List.Chain' (fun a b => a ≤ b)
      (progressVals (transcribeMedia env f mt c).2) ∧
    (∀ v ∈ (progressVals (transcribeMedia env f mt c).2).dropLast, v ≤ 99) ∧
    (progressVals (transcribeMedia env f mt c).2).count 100 = 1 ∧
    (progressVals (transcribeMedia env f mt c).2).getLast? = some 100 ∧
    ∃ pre, (transcribeMedia env f mt c).2
        = pre ++ [Event.progress 100,
            Event.genRequest (if c then GEMINI_PRO_MODEL else GEMINI_FLASH_MODEL)
              (if c then some 32768 else none) (safeMime mt f)] ∧
      (∀ v, Event.progress v ∈ pre → v ≤ 99) := by
  have hrun := transcribeMedia_run_ok env f mt c k raw hk hk2 hi hu hS hcf hpoll
  rw [hrun]
  have hpv : progressVals
      ((Event.initRequest ::
         (chunkTrace (ensureKey k raw) f.size
            (chunksFrom f.size UPLOAD_CHUNK_SIZE 0) ++
          (pollLoop (env.chunkRes
            (nFrom f.size UPLOAD_CHUNK_SIZE 0 - 1)).json.state env.pollStates).2)) ++
        [Event.progress 100,
         Event.genRequest (if c then GEMINI_PRO_MODEL else GEMINI_FLASH_MODEL)
           (if c then some 32768 else none) (safeMime mt f)])
      = ((chunksFrom f.size UPLOAD_CHUNK_SIZE 0).map
          (fun p => pct f.size (p.1 + p.2))) ++ [100] := by
    rw [progressVals_append]
    show progressVals (chunkTrace (ensureKey k raw) f.size
        (chunksFrom f.size UPLOAD_CHUNK_SIZE 0) ++
      (pollLoop (env.chunkRes
        (nFrom f.size UPLOAD_CHUNK_SIZE 0 - 1)).json.state env.pollStates).2) ++ _
      = _
    rw [progressVals_append, progressVals_chunkTrace, progressVals_pollLoop,
      List.append_nil]
    rfl
  refine ⟨hpv, ?_, ?_, ?_, ?_, ?_⟩
  · rw [hpv]
    exact pctChain f.size UPLOAD_CHUNK_SIZE 0
  · rw [hpv, List.dropLast_concat]
    intro v hv
    rcases List.mem_map.mp hv with ⟨p, hp, hpe⟩
    rw [← hpe]
    exact pct_le_99 _ _
  · rw [hpv, List.count_append]
    have h100 : (100 : Nat) ∉ (chunksFrom f.size UPLOAD_CHUNK_SIZE 0).map
        (fun p => pct f.size (p.1 + p.2)) := by
      intro hmem
      rcases List.mem_map.mp hmem with ⟨p, hp, hpe⟩
      have := pct_le_99 f.size (p.1 + p.2)
      omega
    rw [List.count_eq_zero.mpr h100]
    simp
  · rw [hpv]
    exact List.getLast?_concat _
  · refine ⟨Event.initRequest ::
      (chunkTrace (ensureKey k raw) f.size
        (chunksFrom f.size UPLOAD_CHUNK_SIZE 0) ++
       (pollLoop (env.chunkRes
         (nFrom f.size UPLOAD_CHUNK_SIZE 0 - 1)).json.state env.pollStates).2),
      rfl, ?_⟩
    intro v hv
    rcases List.mem_cons.mp hv with h1 | h2
    · cases h1
    · rcases List.mem_append.mp h2 with h3 | h4
      · exact progress_mem_chunkTrace _ _ _ v h3
      · have := pollLoop_events _ _ _ h4
        cases this

/-- Claim C2 amended-claim witness: the successful single-chunk run. -/
theorem claim_C2_progress_contract_witness :
    progressVals (transcribeMedia demoEnv demoFile "audio/mpeg" true).2
      = ((chunksFrom demoFile.size UPLOAD_CHUNK_SIZE 0).map
          (fun p => pct demoFile.size (p.1 + p.2))) ++ [100] ∧
    List.Chain' (fun a b => a ≤ b)
      (progressVals (transcribeMedia demoEnv demoFile "audio/mpeg" true).2) ∧
    (∀ v ∈ (progressVals
        (transcribeMedia demoEnv demoFile "audio/mpeg" true).2).dropLast,
      v ≤ 99) ∧
    (progressVals (transcribeMedia demoEnv demoFile "audio/mpeg" true).2).count 100
      = 1 ∧
    (progressVals (transcribeMedia demoEnv demoFile "audio/mpeg" true).2).getLast?
      = some 100 ∧
    ∃ pre, (transcribeMedia demoEnv demoFile "audio/mpeg" true).2
        = pre ++ [Event.progress 100,
            Event.genRequest (if true then GEMINI_PRO_MODEL else GEMINI_FLASH_MODEL)
              (if true then some 32768 else none)
              (safeMime "audio/mpeg" demoFile)] ∧
      (∀ v, Event.progress v ∈ pre → v ≤ 99) :=
  claim_C2_progress_contract demoEnv demoFile "audio/mpeg" true "K"
    "https://u.example/upload?uid=1" rfl (by decide) rfl rfl (by decide)
    (mkChunkRes_conforming 5 UPLOAD_CHUNK_SIZE contRes finResActive rfl
      (by decide) (by decide))
    (by decide)

/-- Claim C4 counterexample: when the final-chunk response itself reports
state FAILED, uploadToGemini does not fail: the PROCESSING guard of the poll
loop is skipped, the URI is returned, transcribeMedia succeeds and a
generation request is issued — contradicting the claim for the "state
reported with the final-chunk response" case. -/
theorem claim_C4_counterexample :
    (transcribeMedia failEnv demoFile "audio/mpeg" true).1 = Outcome.ok "hi" ∧
    Event.genRequest GEMINI_PRO_MODEL (some 32768) "audio/mpeg" ∈
      (transcribeMedia failEnv demoFile "audio/mpeg" true).2 := by
  decide

/-- Claim C4 (amended): whenever a polling status check reports FAILED (the
final-chunk response having reported PROCESSING), the call fails with the
processing-failure error and no generation request is ever issued.  A FAILED
state carried by the final-chunk response itself is not checked: the code
only tests for FAILED inside the polling loop. -/
theorem claim_C4_poll_failed_aborts (env : Env) (f : MediaFile) (mt : String)
    (c : Bool) (k raw : String) (procs rest : List String)
    (hk : env.apiKey = some k) (hk2 : ¬ k = "")
    (hi : env.initRes.ok = true)
    (hu : env.initRes.uploadUrlHeader = some raw)
    (hS : 0 < f.size)
    (hcf : Conforming env.chunkRes f.size UPLOAD_CHUNK_SIZE)
    (hfin : (env.chunkRes (nFrom f.size UPLOAD_CHUNK_SIZE 0 - 1)).json.state
      = "PROCESSING")
    (hpolls : env.pollStates = procs ++ "FAILED" :: rest)
    (hproc : ∀ p ∈ procs, p = "PROCESSING") :
    (transcribeMedia env f mt c).1
      = Outcome.err "File processing failed on Gemini servers." ∧
    ∀ m t mm, Event.genRequest m t mm ∉ (transcribeMedia env f mt c).2 := by
  have hpl : (pollLoop (env.chunkRes
      (nFrom f.size UPLOAD_CHUNK_SIZE 0 - 1)).json.state env.pollStates).1
      = Outcome.err "File processing failed on Gemini servers." := by
    rw [hfin, hpolls, pollLoop_failed procs rest hproc]
  have hrun := transcribeMedia_run_err env f mt c k raw
    "File processing failed on Gemini servers." hk hk2 hi hu hS hcf hpl
  rw [hrun]
  refine ⟨rfl, ?_⟩
  intro m t mm hm
  rcases List.mem_cons.mp hm with h1 | h2
  · cases h1
  · rcases List.mem_append.mp h2 with h3 | h4
    · exact genRequest_notMem_chunkTrace _ _ _ m t mm h3
    · have := pollLoop_events _ _ _ h4
      cases this

/-- Claim C4 amended-claim witness: the final chunk reports PROCESSING and
the first poll answers FAILED. -/
theorem claim_C4_poll_failed_aborts_witness :
    (transcribeMedia failPollEnv demoFile "audio/mpeg" true).1
      = Outcome.err "File processing failed on Gemini servers." ∧
    ∀ m t mm, Event.genRequest m t mm ∉
      (transcribeMedia failPollEnv demoFile "audio/mpeg" true).2 :=
  claim_C4_poll_failed_aborts failPollEnv demoFile "audio/mpeg" true "K"
    "https://u.example/upload?uid=1" [] [] rfl (by decide) rfl rfl (by decide)
    (mkChunkRes_conforming 5 UPLOAD_CHUNK_SIZE contRes finResProcessing rfl
      (by decide) (by decide))
    (by decide) rfl (by intro p hp; cases hp)

/-- Claim C5: when the generation response text is falsy (absent or empty),
transcribeMedia returns the literal fallback "No transcription generated."
to the caller, never the empty string. -/
theorem claim_C5_empty_generation_fallback (env : Env) (f : MediaFile)
    (mt : String) (c : Bool) (k raw : String)
    (hk : env.apiKey = some k) (hk2 : ¬ k = "")
    (hi : env.initRes.ok = true)
    (hu : env.initRes.uploadUrlHeader = some raw)
    (hS : 0 < f.size)
    (hcf : Conforming env.chunkRes f.size UPLOAD_CHUNK_SIZE)
    (hpoll : (pollLoop (env.chunkRes
        (nFrom f.size UPLOAD_CHUNK_SIZE 0 - 1)).json.state env.pollStates).1
      = Outcome.ok ())
    (hgen : env.genText = none ∨ env.genText = some "") :
    (transcribeMedia env f mt c).1 = Outcome.ok "No transcription generated." ∧
    (transcribeMedia env f mt c).1 ≠ Outcome.ok "" := by
  have hrun := transcribeMedia_run_ok env f mt c k raw hk hk2 hi hu hS hcf hpoll
  have h1 : (transcribeMedia env f mt c).1
      = Outcome.ok "No transcription generated." := by
    rw [hrun]
    show Outcome.ok (genTextOf env) = _
    unfold genTextOf
    rcases hgen with h | h <;> rw [h] <;> exact rfl
  refine ⟨h1, ?_⟩
  rw [h1]
  intro hcon
  injection hcon with hs
  exact absurd hs (by decide)

/-- Claim C5 witness: the generation call answers with empty text. -/
theorem claim_C5_empty_generation_fallback_witness :
    (transcribeMedia emptyGenEnv demoFile "audio/mpeg" true).1
      = Outcome.ok "No transcription generated." ∧
    (transcribeMedia emptyGenEnv demoFile "audio/mpeg" true).1
      ≠ Outcome.ok "" :=
  claim_C5_empty_generation_fallback emptyGenEnv demoFile "audio/mpeg" true "K"
    "https://u.example/upload?uid=1" rfl (by decide) rfl rfl (by decide)
    (mkChunkRes_conforming 5 UPLOAD_CHUNK_SIZE contRes finResActive rfl
      (by decide) (by decide))
    (by decide) (Or.inr rfl)

/-- Claim C9: in every successful run, exactly one generation request is
issued, as the last event; when isComplex is true it uses the deep model
with the extended reasoning budget (thinkingConfig 32768 present), and when
isComplex is false it uses the fast model with no reasoning budget. -/
theorem claim_C9_model_selection (env : Env) (f : MediaFile) (mt : String)
    (c : Bool) (k raw : String)
    (hk : env.apiKey = some k) (hk2 : ¬ k = "")
    (hi : env.initRes.ok = true)
    (hu : env.initRes.uploadUrlHeader = some raw)
    (hS : 0 < f.size)
    (hcf : Conforming env.chunkRes f.size UPLOAD_CHUNK_SIZE)
    (hpoll : (pollLoop (env.chunkRes
        (nFrom f.size UPLOAD_CHUNK_SIZE 0 - 1)).json.state env.pollStates).1
      = Outcome.ok ()) :
    genReqs (transcribeMedia env f mt c).2 =
      [(if c then GEMINI_PRO_MODEL else GEMINI_FLASH_MODEL,
        if c then some 32768 else none, safeMime mt f)] ∧
    (transcribeMedia env f mt c).2.getLast? =
      some (Event.genRequest (if c then GEMINI_PRO_MODEL else GEMINI_FLASH_MODEL)
        (if c then some 32768 else none) (safeMime mt f)) := by
  have hrun := transcribeMedia_run_ok env f mt c k raw hk hk2 hi hu hS hcf hpoll
  rw [hrun]
  constructor
  · rw [genReqs_append]
    show genReqs (chunkTrace (ensureKey k raw) f.size
        (chunksFrom f.size UPLOAD_CHUNK_SIZE 0) ++
      (pollLoop (env.chunkRes
        (nFrom f.size UPLOAD_CHUNK_SIZE 0 - 1)).json.state env.pollStates).2) ++ _
      = _
    rw [genReqs_append, genReqs_chunkTrace, genReqs_pollLoop]
    rfl
  · rw [List.getLast?_append]
    rfl

/-- Claim C9 witness: a successful complex-mode run. -/
theorem claim_C9_model_selection_witness :
    genReqs (transcribeMedia demoEnv demoFile "audio/mpeg" true).2 =
      [(if true then GEMINI_PRO_MODEL else GEMINI_FLASH_MODEL,
        if true then some 32768 else none, safeMime "audio/mpeg" demoFile)] ∧
    (transcribeMedia demoEnv demoFile "audio/mpeg" true).2.getLast? =
      some (Event.genRequest
        (if true then GEMINI_PRO_MODEL else GEMINI_FLASH_MODEL)
        (if true then some 32768 else none) (safeMime "audio/mpeg" demoFile)) :=
  claim_C9_model_selection demoEnv demoFile "audio/mpeg" true "K"
    "https://u.example/upload?uid=1" rfl (by decide) rfl rfl (by decide)
    (mkChunkRes_conforming 5 UPLOAD_CHUNK_SIZE contRes finResActive rfl
      (by decide) (by decide))
    (by decide)

end Transcriber
